import Mathlib

/-!
Shallow embedding of the scraper in src/scraper.py and proofs about it.

The pure string-processing code (extract_movie_info and its regular
expressions) is translated character by character.  The network is
abstracted as an oracle from page index to an optional HTML document,
and the completion order of the thread pool's futures is an explicit
list of page indices, so that the ordering behaviour of
scrape_category_page can be stated and proved.
-/

namespace SkyScrape

/-! ### Configuration constants (module level in scraper.py) -/

def REQUEST_DELAY : Nat := 2

def MAX_RETRIES : Nat := 3

def BASE_URL : String := "https://skymovieshd.mba"

/-! ### Character-level string helpers (Python str and re semantics) -/

/-- Python str.lower applied to a character list (ASCII). -/
def lowerChars (l : List Char) : List Char := l.map Char.toLower

/-- The needle matches literally at the head of the haystack. -/
def matchHere : List Char → List Char → Bool
  | [], _ => true
  | _ :: _, [] => false
  | a :: as, b :: bs => a == b && matchHere as bs

/-- Python substring test x in y: the needle occurs contiguously in the haystack. -/
def containsSeq (needle : List Char) : List Char → Bool
  | [] => matchHere needle []
  | b :: bs => matchHere needle (b :: bs) || containsSeq needle bs

/-- Case-insensitive match of a lowercase token at the head of the haystack,
mirroring re.IGNORECASE on an ASCII token. -/
def matchCIHere : List Char → List Char → Bool
  | [], _ => true
  | _ :: _, [] => false
  | a :: as, b :: bs => a == b.toLower && matchCIHere as bs

/-! ### Year extraction: re.search of a parenthesised four-digit group -/

/-- Match of the year pattern at the head of the list: a literal opening
parenthesis, exactly four digits, a literal closing parenthesis. -/
def yearAt : List Char → Option (List Char)
  | '(' :: a :: b :: c :: d :: ')' :: _ =>
    if a.isDigit && b.isDigit && c.isDigit && d.isDigit then some [a, b, c, d] else none
  | _ => none

/-- Leftmost match of the year pattern, as re.search finds it. -/
def searchYear : List Char → Option (List Char)
  | [] => none
  | c :: t => (yearAt (c :: t)).orElse fun _ => searchYear t

/-! ### Alternation search and substitution (quality and keyword patterns) -/

/-- First alternative (in pattern order) matching case-insensitively at the
head of the list, returning the length of the match.  Alternatives are
stored lowercased. -/
def altAt (alts : List (List Char)) (l : List Char) : Option Nat :=
  alts.findSome? fun alt => if matchCIHere alt l then some alt.length else none

/-- Leftmost case-insensitive match of an alternation, returning the matched
slice of the original string (as re group capture does). -/
def searchAlts (alts : List (List Char)) : List Char → Option (List Char)
  | [] => none
  | c :: t =>
    match altAt alts (c :: t) with
    | some k => some ((c :: t).take k)
    | none => searchAlts alts t

/-- The quality alternatives 720p, 1080p, 480p, 4K, 2160p, lowercased for
the case-insensitive comparison. -/
def qualityAlts : List (List Char) :=
  ["720p".data, "1080p".data, "480p".data, "4k".data, "2160p".data]

/-! ### File-size extraction: bracketed number with GB or MB unit -/

/-- Membership in the character class of digits and the dot. -/
def isSizeChar (c : Char) : Bool := c.isDigit || c == '.'

/-- Python regex whitespace class on ASCII characters. -/
def isPySpace (c : Char) : Bool :=
  c == ' ' || c == '\t' || c == '\n' || c == '\r' || c == Char.ofNat 11 || c == Char.ofNat 12

/-- Match of the unit and closing bracket: GB or MB case-insensitively,
immediately followed by a closing square bracket. -/
def unitAt : List Char → Option (List Char)
  | g :: b :: ']' :: _ =>
    if (g.toLower == 'g' || g.toLower == 'm') && b.toLower == 'b' then some [g, b] else none
  | _ => none

/-- Match of the size pattern at the head: an opening bracket, a nonempty
greedy run of digits and dots, an optional single whitespace, the unit and
the closing bracket; the returned group excludes the brackets. -/
def sizeAt : List Char → Option (List Char)
  | '[' :: rest =>
    let run := rest.takeWhile isSizeChar
    if run.isEmpty then none
    else
      match rest.drop run.length with
      | [] => none
      | c :: rest3 =>
        if isPySpace c then
          match unitAt rest3 with
          | some u => some (run ++ c :: u)
          | none => (unitAt (c :: rest3)).map fun u => run ++ u
        else (unitAt (c :: rest3)).map fun u => run ++ u
  | _ => none

/-- Leftmost match of the size pattern, as re.search finds it. -/
def searchSize : List Char → Option (List Char)
  | [] => none
  | c :: t => (sizeAt (c :: t)).orElse fun _ => searchSize t

/-! ### Language detection -/

/-- The fixed ordered language list from extract_movie_info. -/
def languages : List String :=
  ["Hindi", "English", "Tamil", "Telugu", "Bengali", "Punjabi",
   "Marathi", "Malayalam", "Kannada", "Gujarati", "Urdu", "Dual Audio"]

/-- Case-insensitive substring test lang.lower() in title_text.lower(). -/
def langOccurs (title_text : String) (lang : String) : Bool :=
  containsSeq (lowerChars lang.data) (lowerChars title_text.data)

/-! ### Title cleaning: the chain of re.sub calls.
Each substitution scans left to right, removing non-overlapping matches and
resuming after each match.  The recursions are driven by a fuel argument
equal to the input length; every step consumes at least one character, so
the fuel never runs out on the initial call. -/

/-- Removal of every parenthesised four-digit group (fuelled worker). -/
def subYearF : Nat → List Char → List Char
  | 0, l => l
  | _ + 1, [] => []
  | fuel + 1, l =>
    match l with
    | '(' :: a :: b :: c :: d :: ')' :: rest =>
      if a.isDigit && b.isDigit && c.isDigit && d.isDigit then subYearF fuel rest
      else '(' :: subYearF fuel (a :: b :: c :: d :: ')' :: rest)
    | ch :: t => ch :: subYearF fuel t
    | [] => []

/-- Removal of every parenthesised four-digit group. -/
def subYear (l : List Char) : List Char := subYearF l.length l

/-- Removal of every case-insensitive match of an alternation (fuelled worker). -/
def subAltsF (alts : List (List Char)) : Nat → List Char → List Char
  | 0, l => l
  | _ + 1, [] => []
  | fuel + 1, c :: t =>
    match altAt alts (c :: t) with
    | some k => subAltsF alts fuel ((c :: t).drop k)
    | none => c :: subAltsF alts fuel t

/-- Removal of every case-insensitive match of an alternation. -/
def subAlts (alts : List (List Char)) (l : List Char) : List Char := subAltsF alts l.length l

/-- Index of the first closing bracket reachable without crossing a newline,
mirroring the non-greedy dot which does not match a newline. -/
def closeBrIdx : List Char → Option Nat
  | [] => none
  | ']' :: _ => some 0
  | '\n' :: _ => none
  | _ :: t => (closeBrIdx t).map (· + 1)

/-- Removal of every non-greedy bracketed group (fuelled worker). -/
def subBracketsF : Nat → List Char → List Char
  | 0, l => l
  | _ + 1, [] => []
  | fuel + 1, '[' :: t =>
    match closeBrIdx t with
    | some k => subBracketsF fuel (t.drop (k + 1))
    | none => '[' :: subBracketsF fuel t
  | fuel + 1, c :: t => c :: subBracketsF fuel t

/-- Removal of every non-greedy bracketed group. -/
def subBrackets (l : List Char) : List Char := subBracketsF l.length l

/-- The release-keyword alternatives, lowercased, with the optional suffixes
of ESubs? and the optional dot of ORG expanded in greedy order. -/
def keywordAlts : List (List Char) :=
  ["hdrip".data, "bluray".data, "web-dl".data, "hevc".data, "x264".data, "x265".data,
   "aac".data, "esubs".data, "esub".data, "org.".data, "org".data, "full".data, "movie".data]

/-- Replacement of every maximal whitespace run by a single space (fuelled worker). -/
def collapseWsF : Nat → List Char → List Char
  | 0, l => l
  | _ + 1, [] => []
  | fuel + 1, c :: t =>
    if isPySpace c then ' ' :: collapseWsF fuel (t.dropWhile isPySpace)
    else c :: collapseWsF fuel t

/-- Replacement of every maximal whitespace run by a single space. -/
def collapseWs (l : List Char) : List Char := collapseWsF l.length l

/-- Python str.strip: removal of leading and trailing whitespace. -/
def stripWs (l : List Char) : List Char :=
  ((l.dropWhile isPySpace).reverse.dropWhile isPySpace).reverse

/-- The clean-title pipeline of extract_movie_info: remove the year group,
the quality tokens, the bracketed groups and the release keywords, then
collapse whitespace and strip. -/
def cleanTitle (l : List Char) : List Char :=
  stripWs (collapseWs (subAlts keywordAlts (subBrackets (subAlts qualityAlts (subYear l)))))

/-! ### extract_movie_info -/

/-- The dictionary returned by extract_movie_info: its five keys are the
fields of this structure. -/
structure MovieInfo where
  title : String
  year : Option String
  quality : Option String
  language : Option String
  file_size : Option String
  deriving Repr, DecidableEq

/-- Translation of extract_movie_info from scraper.py. -/
def extract_movie_info (title_text : String) : MovieInfo :=
  let l := title_text.data
  { title := String.mk (cleanTitle l)
    year := (searchYear l).map String.mk
    quality := (searchAlts qualityAlts l).map String.mk
    language := languages.find? (langOccurs title_text)
    file_size := (searchSize l).map String.mk }

/-! ### HTML model.
BeautifulSoup parsing is abstracted: a document is the list of its div
elements, each carrying whether it has class L and align left, and its
anchor elements in document order.  An anchor's text field holds the
result of get_text with strip, and its href is absent when the tag has
no href attribute. -/

/-- An anchor element: optional href attribute and stripped text content. -/
structure Anchor where
  href : Option String
  text : String
  deriving Repr, DecidableEq

/-- A div element with the attributes the scraper inspects. -/
structure PageDiv where
  classL : Bool
  alignLeft : Bool
  anchors : List Anchor
  deriving Repr, DecidableEq

/-- A parsed HTML document: its div elements in document order. -/
structure Html where
  divs : List PageDiv
  deriving Repr, DecidableEq

/-- One extracted movie row, with the keys of the dictionary built in
scrape_category_page. -/
structure Record where
  category : String
  title : String
  year : Option String
  quality : Option String
  language : Option String
  file_size : Option String
  download_url : String
  full_title : String
  deriving Repr, DecidableEq

/-- The href begins with an absolute http or https scheme. -/
def isAbsoluteUrl (href : String) : Bool :=
  matchHere "http://".data href.data || matchHere "https://".data href.data

/-- Simplified model of urllib.parse.urljoin for the hrefs this site
serves: an absolute URL is returned unchanged, a relative one is resolved
against the base. -/
def urljoin (base href : String) : String :=
  if isAbsoluteUrl href then href else base ++ "/" ++ href

/-- The soup.find_all call: div elements with class L and align left. -/
def listingDivs (h : Html) : List PageDiv :=
  h.divs.filter fun d => d.classL && d.alignLeft

/-- The body of the per-div loop in scrape_category_page: the first anchor
with an href is taken; the div is skipped when there is none or when the
href is the placeholder movie/.html, and otherwise yields one record. -/
def divToRecord (category_name : String) (d : PageDiv) : Option Record :=
  match d.anchors.find? (fun a => a.href.isSome) with
  | none => none
  | some a =>
    match a.href with
    | none => none
    | some href =>
      if href = "movie/.html" then none
      else
        let title := a.text
        let info := extract_movie_info title
        some { category := category_name
               title := info.title
               year := info.year
               quality := info.quality
               language := info.language
               file_size := info.file_size
               download_url := urljoin BASE_URL href
               full_title := title }

/-- The records extracted from one page's HTML, in document order. -/
def parsePage (category_name : String) (h : Html) : List Record :=
  (listingDivs h).filterMap (divToRecord category_name)

/-! ### Fetching and aggregation.
The network is an oracle from page index to an optional document; a none
outcome stands for a request that still fails after the session-level
retries.  fetch_page returns the result together with the warning lines it
logs.  The completion order of the futures delivered by as_completed is an
explicit list of page indices; the code of scrape_category_page submits
one future per page 1..N, so a completion order is a permutation of the
page range. -/

/-- Translation of fetch_page: the fetched document, or none together with
a logged warning line. -/
def fetch_page (net : Nat → Option Html) (p : Nat) : Option Html × List String :=
  match net p with
  | some h => (some h, [])
  | none => (none, ["Error fetching page " ++ toString p])

/-- The page_results list built by the as_completed loop: one pair of page
index and parsed records per future whose fetch returned a document, in
completion order. -/
def collectPages (cat : String) (net : Nat → Option Html) (order : List Nat) :
    List (Nat × List Record) :=
  order.filterMap fun p => (fetch_page net p).1.map fun h => (p, parsePage cat h)

/-- The comparison used by the final sort: page index order. -/
def pageLE (x y : Nat × List Record) : Prop := x.1 ≤ y.1

instance : DecidableRel pageLE := fun x y => Nat.decLe x.1 y.1

instance : IsTotal (Nat × List Record) pageLE := ⟨fun a b => Nat.le_total a.1 b.1⟩

instance : IsTrans (Nat × List Record) pageLE := ⟨fun _ _ _ h1 h2 => Nat.le_trans h1 h2⟩

/-- Strict page index order, used to identify the sorted list uniquely. -/
def pageLT (x y : Nat × List Record) : Prop := x.1 < y.1

instance : IsAntisymm (Nat × List Record) pageLT :=
  ⟨fun _ _ h1 h2 => absurd h1 (Nat.not_lt.mpr (Nat.le_of_lt h2))⟩

/-- The stable sort of page_results by page index. -/
def sortPages (l : List (Nat × List Record)) : List (Nat × List Record) :=
  List.insertionSort pageLE l

/-- Translation of scrape_category_page: parse each completed page, sort
the per-page results by page index and concatenate them. -/
def scrape_category_page (cat : String) (net : Nat → Option Html) (order : List Nat) :
    List Record :=
  ((sortPages (collectPages cat net order)).map Prod.snd).flatten

/-- The warning lines logged by fetch_page over one category's fetches. -/
def categoryWarnings (net : Nat → Option Html) (order : List Nat) : List String :=
  (order.map fun p => (fetch_page net p).2).flatten

/-- One category's run: its name, its network oracle and the completion
order of its page futures. -/
structure CategoryRun where
  name : String
  net : Nat → Option Html
  order : List Nat

/-- The category loop of main: all_movies extended by each category's
records in turn. -/
def run_batch (runs : List CategoryRun) : List Record :=
  (runs.map fun r => scrape_category_page r.name r.net r.order).flatten

/-! ### get_page_content: the explicit retry loop.
The attempts are an oracle from attempt index to an optional body.  The
result is returned together with the list of sleep durations performed
between attempts. -/

/-- Worker for the retry loop, recursing on the number of remaining
attempts; the attempt argument is the current zero-based attempt index. -/
def gpcGo (att : Nat → Option String) (attempt : Nat) : Nat → Option String × List Nat
  | 0 => (none, [])
  | remaining + 1 =>
    match att attempt with
    | some content => (some content, [])
    | none =>
      if remaining = 0 then (none, [])
      else
        let r := gpcGo att (attempt + 1) remaining
        (r.1, REQUEST_DELAY * (attempt + 1) :: r.2)

/-- Translation of get_page_content: up to the given number of attempts,
sleeping REQUEST_DELAY times the one-based attempt number after each
failed attempt that is not the last. -/
def get_page_content (att : Nat → Option String) (retries : Nat) : Option String × List Nat :=
  gpcGo att 0 retries

/-! ### save_to_excel: column selection -/

/-- The columns list of save_to_excel, in code order. -/
def excelColumns : List String :=
  ["category", "title", "year", "quality", "language", "genre",
   "file_size", "release_date", "stars", "download_url", "poster_url", "full_title"]

/-- The column selection of save_to_excel: the canonical columns that are
present in the data frame, in canonical order. -/
def selectColumns (dataCols : List String) : List String :=
  excelColumns.filter fun c => dataCols.contains c

/-- The keys of every record dictionary built in scrape_category_page, in
insertion order. -/
def recordKeys : List String :=
  ["category", "title", "year", "quality", "language", "file_size",
   "download_url", "full_title"]

/-- Modelled from the spec: the canonical column order named by the spec,
which omits the poster_url column that the code's list carries. -/
def specCanonicalColumns : List String :=
  ["category", "title", "year", "quality", "language", "genre",
   "file_size", "release_date", "stars", "download_url", "full_title"]

/-! ### Helper lemmas about the aggregation -/

lemma fetch_page_fst (net : Nat → Option Html) (p : Nat) : (fetch_page net p).1 = net p := by
  cases h : net p <;> simp [fetch_page, h]

lemma collectPages_cons (cat : String) (net : Nat → Option Html) (p : Nat) (t : List Nat) :
    collectPages cat net (p :: t) =
      match net p with
      | none => collectPages cat net t
      | some h => (p, parsePage cat h) :: collectPages cat net t := by
  cases hn : net p <;> simp [collectPages, List.filterMap_cons, fetch_page, hn]

lemma collectPages_keys_sublist (cat : String) (net : Nat → Option Html) :
    ∀ order : List Nat, ((collectPages cat net order).map Prod.fst).Sublist order
  | [] => by simp [collectPages]
  | p :: t => by
    rw [collectPages_cons]
    cases hn : net p with
    | none => exact (collectPages_keys_sublist cat net t).trans (List.sublist_cons_self p t)
    | some h => simpa using (collectPages_keys_sublist cat net t).cons₂ p

lemma collectPages_pairwise {R : Nat → Nat → Prop} (cat : String) (net : Nat → Option Html) :
    ∀ {order : List Nat}, order.Pairwise R →
      (collectPages cat net order).Pairwise fun a b => R a.1 b.1 := by
  intro order
  induction order with
  | nil => intro _; simp [collectPages]
  | cons p t ih =>
    intro hp
    rcases List.pairwise_cons.mp hp with ⟨h1, h2⟩
    rw [collectPages_cons]
    cases hn : net p with
    | none => exact ih h2
    | some h =>
      refine List.pairwise_cons.mpr ⟨?_, ih h2⟩
      intro b hb
      have hmem : b.1 ∈ (collectPages cat net t).map Prod.fst := List.mem_map_of_mem _ hb
      exact h1 _ ((collectPages_keys_sublist cat net t).subset hmem)

lemma collectPages_map_snd (cat : String) (net : Nat → Option Html) :
    ∀ order : List Nat,
      (collectPages cat net order).map Prod.snd =
        order.filterMap fun p => (net p).map (parsePage cat)
  | [] => rfl
  | p :: t => by
    rw [collectPages_cons]
    cases hn : net p <;>
      simp [List.filterMap_cons, hn, collectPages_map_snd cat net t]

lemma mem_collectPages (cat : String) {net : Nat → Option Html} {p0 : Nat} {html : Html}
    {order : List Nat} (hp : p0 ∈ order) (hnet : net p0 = some html) :
    (p0, parsePage cat html) ∈ collectPages cat net order := by
  refine List.mem_filterMap.mpr ⟨p0, hp, ?_⟩
  simp [fetch_page, hnet]

lemma sortPages_eq_of_perm {l1 l2 : List (Nat × List Record)}
    (hperm : l1.Perm l2) (hnd : (l1.map Prod.fst).Nodup)
    (hs2 : List.Sorted pageLT l2) : sortPages l1 = l2 := by
  have hp1 : (sortPages l1).Perm l1 := List.perm_insertionSort pageLE l1
  have hsle : List.Sorted pageLE (sortPages l1) := List.sorted_insertionSort pageLE l1
  have hndk : ((sortPages l1).map Prod.fst).Nodup := (hp1.map Prod.fst).nodup_iff.mpr hnd
  have hne : (sortPages l1).Pairwise fun a b => a.1 ≠ b.1 :=
    List.pairwise_map.mp hndk
  have hslt : List.Sorted pageLT (sortPages l1) :=
    (hsle.and hne).imp fun hab => Nat.lt_of_le_of_ne hab.1 hab.2
  have hs2' : List.Sorted pageLT l2 := hs2
  exact List.eq_of_perm_of_sorted (hp1.trans hperm) hslt hs2'

lemma scrape_canonical (cat : String) (net : Nat → Option Html) (N : Nat) (order : List Nat)
    (h : order.Perm (List.range' 1 N)) :
    scrape_category_page cat net order =
      ((List.range' 1 N).filterMap fun p => (net p).map (parsePage cat)).flatten := by
  have hcanon : List.Sorted pageLT (collectPages cat net (List.range' 1 N)) :=
    collectPages_pairwise cat net (List.pairwise_lt_range' 1 N)
  have hperm : (collectPages cat net order).Perm (collectPages cat net (List.range' 1 N)) := by
    simpa [collectPages] using h.filterMap fun p => (fetch_page net p).1.map fun d => (p, parsePage cat d)
  have hndorder : order.Nodup := h.symm.nodup (List.nodup_range' 1 N)
  have hnd : ((collectPages cat net order).map Prod.fst).Nodup :=
    List.Nodup.sublist (collectPages_keys_sublist cat net order) hndorder
  rw [scrape_category_page, sortPages_eq_of_perm hperm hnd hcanon, collectPages_map_snd]

lemma flatten_filterMap_skip {β : Type} (f : Nat → Option (List β)) (p0 : Nat)
    (hf : (f p0).getD [] = []) :
    ∀ l : List Nat,
      (((l.filter fun q => q != p0).filterMap f).flatten : List β) =
        (l.filterMap f).flatten
  | [] => rfl
  | q :: t => by
    by_cases hq : q = p0
    · subst hq
      cases hfq : f q with
      | none =>
        simp [List.filter_cons, List.filterMap_cons, hfq, flatten_filterMap_skip f q hf t]
      | some ys =>
        have hys : ys = [] := by simpa [hfq] using hf
        subst hys
        simp [List.filter_cons, List.filterMap_cons, hfq, flatten_filterMap_skip f q hf t]
    · cases hfq : f q <;>
        simp [List.filter_cons, List.filterMap_cons, hfq, hq,
          flatten_filterMap_skip f p0 hf t]

lemma filterMap_some_eq_map {α β : Type} (f : α → Option β) (g : α → β) :
    ∀ l : List α, (∀ p ∈ l, f p = some (g p)) → l.filterMap f = l.map g
  | [] => fun _ => rfl
  | p :: t => fun h => by
    have hp := h p (List.mem_cons_self p t)
    simp [List.filterMap_cons, hp,
      filterMap_some_eq_map f g t fun q hq => h q (List.mem_cons_of_mem p hq)]

/-! ### Witness fixtures -/

/-- A listing page with one usable record and one non-matching div. -/
def htmlW : Html :=
  ⟨[⟨true, true, [⟨some "movie/Abc-2023.html", "Abc (2023) Hindi 720p [900MB]"⟩]⟩,
    ⟨true, false, []⟩]⟩

/-- A fetched page with no div elements at all. -/
def htmlEmptyW : Html := ⟨[]⟩

/-- A two-page network where both pages resolve. -/
def netW : Nat → Option Html
  | 1 => some htmlW
  | 2 => some htmlEmptyW
  | _ => none

/-- A network where page 1 fails and page 2 resolves. -/
def netFailW : Nat → Option Html
  | 2 => some htmlW
  | _ => none

/-- A page function for the all-pages-succeed scenario. -/
def pagesW : Nat → Html
  | 1 => htmlW
  | _ => htmlEmptyW

/-- A category run whose every page fetch fails. -/
def failRunW : CategoryRun := ⟨"Hot Short Film", fun _ => none, [1, 2]⟩

/-! ### Claims -/

/-- C1: for every category, the record sequence returned by
scrape_category_page depends only on the page indices and on each page's
parsed records: two runs that fetch the same pages to the same HTML,
differing only in the completion order of the futures, return identical
output lists. -/
theorem claim1_completion_order_irrelevant (cat : String) (net : Nat → Option Html)
    (N : Nat) (o1 o2 : List Nat)
    (h1 : o1.Perm (List.range' 1 N)) (h2 : o2.Perm (List.range' 1 N)) :
    scrape_category_page cat net o1 = scrape_category_page cat net o2 := by
  rw [scrape_canonical cat net N o1 h1, scrape_canonical cat net N o2 h2]

theorem claim1_witness :
    ([1, 2] : List Nat).Perm (List.range' 1 2) ∧ ([2, 1] : List Nat).Perm (List.range' 1 2) ∧
      scrape_category_page "Bollywood Movies" netW [1, 2] =
        scrape_category_page "Bollywood Movies" netW [2, 1] :=
  ⟨List.isPerm_iff.mp (by decide), List.isPerm_iff.mp (by decide),
    claim1_completion_order_irrelevant "Bollywood Movies" netW 2 [1, 2] [2, 1]
      (List.isPerm_iff.mp (by decide)) (List.isPerm_iff.mp (by decide))⟩

/-- C2: when all page fetches of a category settle successfully,
scrape_category_page returns the per-page record lists sorted by page index
in ascending order 1..N and concatenated, with the within-page record order
preserved exactly as parsed from each page's HTML. -/
theorem claim2_sorted_concatenation (cat : String) (net : Nat → Option Html)
    (pages : Nat → Html) (N : Nat) (order : List Nat)
    (hall : ∀ p ∈ List.range' 1 N, net p = some (pages p))
    (h : order.Perm (List.range' 1 N)) :
    scrape_category_page cat net order =
      ((List.range' 1 N).map fun p => parsePage cat (pages p)).flatten := by
  rw [scrape_canonical cat net N order h,
    filterMap_some_eq_map _ _ _ fun p hp => by rw [hall p hp]; rfl]

theorem claim2_witness :
    scrape_category_page "Bollywood Movies" (fun p => some (pagesW p)) [2, 1] =
      ((List.range' 1 2).map fun p => parsePage "Bollywood Movies" (pagesW p)).flatten :=
  claim2_sorted_concatenation "Bollywood Movies" (fun p => some (pagesW p)) pagesW 2 [2, 1]
    (fun _ _ => rfl) (List.isPerm_iff.mp (by decide))

/-- C4: a page whose fetch still fails after all retries contributes zero
records and does not abort the batch: the output of scrape_category_page
equals the aggregation over the remaining pages alone. -/
theorem claim4_failed_page_contributes_nothing (cat : String) (net : Nat → Option Html)
    (N : Nat) (order : List Nat) (p0 : Nat)
    (h : order.Perm (List.range' 1 N)) (hp : net p0 = none) :
    scrape_category_page cat net order =
      (((List.range' 1 N).filter fun q => q != p0).filterMap
          fun p => (net p).map (parsePage cat)).flatten := by
  rw [scrape_canonical cat net N order h]
  exact (flatten_filterMap_skip _ p0 (by simp [hp]) (List.range' 1 N)).symm

theorem claim4_witness :
    scrape_category_page "WWE TV Shows" netFailW [2, 1] =
      (((List.range' 1 2).filter fun q => q != 1).filterMap
          fun p => (netFailW p).map (parsePage "WWE TV Shows")).flatten :=
  claim4_failed_page_contributes_nothing "WWE TV Shows" netFailW 2 [2, 1] 1
    (List.isPerm_iff.mp (by decide)) rfl

/-- C6: a successfully fetched page whose HTML yields no usable listing div
produces an empty record list, not an error; the page still takes part in
the final ordering, contributing zero records, and the output equals the
aggregation over the other pages. -/
theorem claim6_no_markup_page_empty (cat : String) (net : Nat → Option Html) (N : Nat)
    (order : List Nat) (p0 : Nat) (html : Html)
    (h : order.Perm (List.range' 1 N)) (hp : p0 ∈ order) (hnet : net p0 = some html)
    (hnm : ∀ d ∈ listingDivs html, divToRecord cat d = none) :
    parsePage cat html = [] ∧
    (p0, ([] : List Record)) ∈ sortPages (collectPages cat net order) ∧
    scrape_category_page cat net order =
      (((List.range' 1 N).filter fun q => q != p0).filterMap
          fun p => (net p).map (parsePage cat)).flatten := by
  have hempty : parsePage cat html = [] := List.filterMap_eq_nil_iff.mpr hnm
  refine ⟨hempty, ?_, ?_⟩
  · have hmem := mem_collectPages cat hp hnet
    rw [hempty] at hmem
    exact (List.perm_insertionSort pageLE _).mem_iff.mpr hmem
  · rw [scrape_canonical cat net N order h]
    exact (flatten_filterMap_skip _ p0 (by simp [hnet, hempty]) (List.range' 1 N)).symm

theorem claim6_witness :
    parsePage "Bollywood Movies" htmlEmptyW = [] ∧
    (2, ([] : List Record)) ∈ sortPages (collectPages "Bollywood Movies" netW [2, 1]) ∧
    scrape_category_page "Bollywood Movies" netW [2, 1] =
      (((List.range' 1 2).filter fun q => q != 2).filterMap
          fun p => (netW p).map (parsePage "Bollywood Movies")).flatten :=
  claim6_no_markup_page_empty "Bollywood Movies" netW 2 [2, 1] 2 htmlEmptyW
    (List.isPerm_iff.mp (by decide)) (by decide) rfl
    (fun d hd => by simp [listingDivs, htmlEmptyW] at hd)

/-- C8: a completely unreachable category yields an empty record list, is
surfaced through fetch warnings, and the batch proceeds to the remaining
categories unchanged. -/
theorem claim8_unreachable_category (r : CategoryRun) (rest : List CategoryRun)
    (hfail : ∀ p, r.net p = none) (hne : r.order ≠ []) :
    scrape_category_page r.name r.net r.order = [] ∧
    categoryWarnings r.net r.order ≠ [] ∧
    run_batch (r :: rest) = run_batch rest := by
  have hempty : collectPages r.name r.net r.order = [] := by
    apply List.filterMap_eq_nil_iff.mpr
    intro p _
    simp [fetch_page, hfail p]
  have hscrape : scrape_category_page r.name r.net r.order = [] := by
    simp [scrape_category_page, hempty, sortPages]
  refine ⟨hscrape, ?_, ?_⟩
  · cases horder : r.order with
    | nil => exact absurd horder hne
    | cons q t => simp [categoryWarnings, horder, fetch_page, hfail q]
  · simp [run_batch, hscrape]

theorem claim8_witness :
    scrape_category_page failRunW.name failRunW.net failRunW.order = [] ∧
    categoryWarnings failRunW.net failRunW.order ≠ [] ∧
    run_batch [failRunW] = run_batch [] :=
  claim8_unreachable_category failRunW [] (fun _ => rfl) (by decide)

/-- C3: the retry loop of get_page_content makes up to MAX_RETRIES = 3
attempts, sleeping a linearly increasing delay of REQUEST_DELAY times the
one-based attempt number between successive attempts, and abandons the page
with none after the third failure. -/
theorem claim3_retry_linear_delay (att : Nat → Option String) :
    get_page_content att MAX_RETRIES =
      match att 0, att 1, att 2 with
      | some c, _, _ => (some c, [])
      | none, some c, _ => (some c, [REQUEST_DELAY * 1])
      | none, none, some c => (some c, [REQUEST_DELAY * 1, REQUEST_DELAY * 2])
      | none, none, none => (none, [REQUEST_DELAY * 1, REQUEST_DELAY * 2]) := by
  cases h0 : att 0 <;> cases h1 : att 1 <;> cases h2 : att 2 <;>
    simp [get_page_content, MAX_RETRIES, gpcGo, h0, h1, h2, REQUEST_DELAY]

theorem claim3_witness :
    get_page_content (fun _ => none) MAX_RETRIES = (none, [2, 4]) := by
  have h := claim3_retry_linear_delay fun _ => none
  simpa [REQUEST_DELAY] using h

/-- C5 as stated is refuted: on the given input the cleaned title is not
"Movie Name", because the release-keyword substitution in
extract_movie_info also removes the word Movie itself. -/
theorem claim5_counterexample :
    (extract_movie_info "Movie Name (2023) 1080p [1.4GB]").title ≠ "Movie Name" := by
  decide

/-- C5 amended: for the input "Movie Name (2023) 1080p [1.4GB]",
extract_movie_info returns year 2023, quality 1080p, file size 1.4GB and
the cleaned title "Name", which contains no residual year, quality or
bracketed tag. -/
theorem claim5_extraction_fields :
    extract_movie_info "Movie Name (2023) 1080p [1.4GB]" =
      { title := "Name", year := some "2023", quality := some "1080p",
        language := none, file_size := some "1.4GB" } ∧
    searchYear "Name".data = none ∧
    searchAlts qualityAlts "Name".data = none ∧
    searchSize "Name".data = none ∧
    "Name".data.contains '[' = false := by
  refine ⟨by decide, by decide, by decide, by decide, by decide⟩

/-- C7: for data whose columns come from the records this scraper builds,
the saved spreadsheet contains exactly the columns present in the data, in
the canonical order the spec names, and absent columns are omitted. -/
theorem claim7_column_selection (dataCols : List String)
    (hsub : ∀ c ∈ dataCols, c ∈ recordKeys) :
    selectColumns dataCols = specCanonicalColumns.filter (fun c => dataCols.contains c) ∧
    ∀ c, c ∈ selectColumns dataCols ↔ c ∈ dataCols := by
  have hpost : "poster_url" ∉ dataCols := by
    intro hmem
    have := hsub _ hmem
    simp [recordKeys] at this
  have hkeys : ∀ c ∈ recordKeys, c ∈ excelColumns := by decide
  constructor
  · simp [selectColumns, excelColumns, specCanonicalColumns, List.filter_cons, hpost]
  · intro c
    simp only [selectColumns, List.mem_filter]
    constructor
    · rintro ⟨-, hc⟩
      simpa using hc
    · intro hc
      exact ⟨hkeys c (hsub c hc), by simpa using hc⟩

theorem claim7_witness :
    selectColumns recordKeys = specCanonicalColumns.filter (fun c => recordKeys.contains c) ∧
    ∀ c, c ∈ selectColumns recordKeys ↔ c ∈ recordKeys :=
  claim7_column_selection recordKeys fun _ hc => hc

/-- C9: extract_movie_info returns the five fixed fields, and its language
field is exactly the first entry of the fixed ordered language list that
occurs case-insensitively as a substring of the input, or none when no
entry occurs. -/
theorem claim9_language_first_match (s : String) :
    ((extract_movie_info s).language = none ↔ ∀ lang ∈ languages, ¬ langOccurs s lang) ∧
    ∀ lang, ((extract_movie_info s).language = some lang ↔
      langOccurs s lang ∧
        ∃ pre post, languages = pre ++ lang :: post ∧ ∀ l ∈ pre, ¬ langOccurs s l) := by
  constructor
  · simp [extract_movie_info, List.find?_eq_none]
  · intro lang
    simp [extract_movie_info, List.find?_eq_some]

theorem claim9_witness :
    (extract_movie_info "Baahubali Telugu 720p").language = some "Telugu" :=
  ((claim9_language_first_match "Baahubali Telugu 720p").2 "Telugu").mpr
    ⟨by decide,
      ["Hindi", "English", "Tamil"],
      ["Bengali", "Punjabi", "Marathi", "Malayalam", "Kannada", "Gujarati", "Urdu", "Dual Audio"],
      by decide, by decide⟩

/-- C10: while parsing a listing page, no record is emitted for a matching
div without an anchor carrying an href, nor for one whose anchor href is
the placeholder movie/.html; every emitted record carries the category
name, a download_url joined from the href and BASE_URL, and full_title
equal to the raw anchor text. -/
theorem claim10_record_fields (cat : String) (h : Html) :
    (∀ d ∈ listingDivs h, d.anchors.find? (fun x => x.href.isSome) = none →
        divToRecord cat d = none) ∧
    (∀ d ∈ listingDivs h, ∀ a, d.anchors.find? (fun x => x.href.isSome) = some a →
        a.href = some "movie/.html" → divToRecord cat d = none) ∧
    (∀ r ∈ parsePage cat h, r.category = cat ∧
        ∃ d ∈ listingDivs h, ∃ a href,
          d.anchors.find? (fun x => x.href.isSome) = some a ∧ a.href = some href ∧
          href ≠ "movie/.html" ∧ r.download_url = urljoin BASE_URL href ∧
          r.full_title = a.text) := by
  refine ⟨?_, ?_, ?_⟩
  · intro d _ hfind
    simp only [divToRecord, hfind]
  · intro d _ a hfind hhref
    simp only [divToRecord, hfind, hhref, if_true]
  · intro r hr
    rcases List.mem_filterMap.mp hr with ⟨d, hd, hrec⟩
    rcases hfind : d.anchors.find? (fun x => x.href.isSome) with _ | a
    · simp only [divToRecord, hfind] at hrec
      exact Option.noConfusion hrec
    · rcases hhref : a.href with _ | href
      · simp only [divToRecord, hfind, hhref] at hrec
        exact Option.noConfusion hrec
      · by_cases hph : href = "movie/.html"
        · simp only [divToRecord, hfind, hhref] at hrec
          rw [if_pos hph] at hrec
          exact Option.noConfusion hrec
        · simp only [divToRecord, hfind, hhref] at hrec
          rw [if_neg hph] at hrec
          have hr2 := Option.some.inj hrec
          subst hr2
          exact ⟨rfl, d, hd, a, href, hfind, hhref, hph, rfl, rfl⟩

/-- The mixed fixture page for the C10 witness: a div with no usable
anchor, a div with the placeholder href and a div with a real link. -/
def divNoHrefW : PageDiv := ⟨true, true, [⟨none, "no link"⟩]⟩

def divPlaceholderW : PageDiv := ⟨true, true, [⟨some "movie/.html", "placeholder"⟩]⟩

def divGoodW : PageDiv := ⟨true, true, [⟨some "movie/Abc-2023.html", "Abc (2023)"⟩]⟩

def htmlMixW : Html := ⟨[divNoHrefW, divPlaceholderW, divGoodW]⟩

theorem claim10_witness :
    divToRecord "TV Serial Episodes" divNoHrefW = none ∧
    divToRecord "TV Serial Episodes" divPlaceholderW = none ∧
    ∀ r ∈ parsePage "TV Serial Episodes" htmlMixW, r.category = "TV Serial Episodes" :=
  ⟨(claim10_record_fields "TV Serial Episodes" htmlMixW).1 divNoHrefW (by decide) (by decide),
    (claim10_record_fields "TV Serial Episodes" htmlMixW).2.1 divPlaceholderW (by decide)
      ⟨some "movie/.html", "placeholder"⟩ (by decide) rfl,
    fun r hr => ((claim10_record_fields "TV Serial Episodes" htmlMixW).2.2 r hr).1⟩

end SkyScrape
